import Mathlib

/-!
Verification of festus/value-weight-singleton.h.

A shallow embedding of the weight facade `ValueWeightSingleton<S, Singleton>`
around a singleton semiring object, followed by theorems about it.

* The template parameter `S` (the semiring class) becomes a record of its
  const member functions over the value type `S::ValueType`.  The singleton
  `Semiring()` is immutable, so it is passed explicitly as the first argument
  of every operation that consults it.
* `FSTERROR()` writes to a diagnostic log, which is passed explicitly.
* `std::istream` / `std::ostream` are modelled by an in-memory character
  stream with the iostate bits.
* The POD value type is described by its size and its object representation.
-/

namespace festus

/-! ## Definitions -/

/-- The semiring class `S` of the facade: the const member functions that
`ValueWeightSingleton` calls on `Semiring()`, over `V = S::ValueType`. -/
structure SemiringType (V : Type) where
  NoWeight : V
  Zero : V
  One : V
  OpPlus : V → V → V
  OpMinus : V → V → V
  OpTimes : V → V → V
  OpDivide : V → V → V
  Reciprocal : V → V
  OpStar : V → V
  Reverse : V → V
  Member : V → Bool
  EqualTo : V → V → Bool
  Commutative : Bool
  Idempotent : Bool
  Name : String

/-- The enumeration `fst::DivideType` of `fst/weight.h`. -/
inductive DivideType where
  | DIVIDE_LEFT
  | DIVIDE_RIGHT
  | DIVIDE_ANY
  deriving DecidableEq, Repr

/-- The class `ValueWeightSingleton`: its only data member is `value_`. -/
structure ValueWeightSingleton (V : Type) where
  value_ : V
  deriving DecidableEq, Repr

/-- The diagnostics written so far through `FSTERROR()`, oldest first. -/
abbrev ErrorLog := List String

/-- Modelled from the spec: the macro `FSTERROR()` comes from the OpenFst
headers and is not among the sources.  The spec asks for a reported,
recoverable diagnostic, so one use of `FSTERROR() << msg` appends `msg` to
the diagnostic log and returns to the caller. -/
def FSTERROR (log : ErrorLog) (msg : String) : ErrorLog :=
  log ++ [msg]

/-- The accessor `Value()`. -/
def Value {V : Type} (w : ValueWeightSingleton V) : V :=
  w.value_

/-- The static member `NoWeight()`. -/
def NoWeight {V : Type} (S : SemiringType V) : ValueWeightSingleton V :=
  ⟨S.NoWeight⟩

/-- The static member `Zero()`. -/
def Zero {V : Type} (S : SemiringType V) : ValueWeightSingleton V :=
  ⟨S.Zero⟩

/-- The static member `One()`. -/
def One {V : Type} (S : SemiringType V) : ValueWeightSingleton V :=
  ⟨S.One⟩

/-- The friend function `Plus(lhs, rhs)`. -/
def Plus {V : Type} (S : SemiringType V) (lhs rhs : ValueWeightSingleton V) :
    ValueWeightSingleton V :=
  { lhs with value_ := S.OpPlus lhs.value_ rhs.value_ }

/-- The friend function `Minus(lhs, rhs)`. -/
def Minus {V : Type} (S : SemiringType V) (lhs rhs : ValueWeightSingleton V) :
    ValueWeightSingleton V :=
  { lhs with value_ := S.OpMinus lhs.value_ rhs.value_ }

/-- The friend function `Times(lhs, rhs)`. -/
def Times {V : Type} (S : SemiringType V) (lhs rhs : ValueWeightSingleton V) :
    ValueWeightSingleton V :=
  { lhs with value_ := S.OpTimes lhs.value_ rhs.value_ }

/-- The friend function `Star(w)`. -/
def Star {V : Type} (S : SemiringType V) (w : ValueWeightSingleton V) :
    ValueWeightSingleton V :=
  { w with value_ := S.OpStar w.value_ }

/-- The friend `operator==`. -/
def opEq {V : Type} (S : SemiringType V) (lhs rhs : ValueWeightSingleton V) : Bool :=
  S.EqualTo lhs.value_ rhs.value_

/-- The friend `operator!=`. -/
def opNe {V : Type} (S : SemiringType V) (lhs rhs : ValueWeightSingleton V) : Bool :=
  !S.EqualTo lhs.value_ rhs.value_

/-- The member `Hash()`, which is `std::hash<ValueType>()(value_)`.  The
specialisation `std::hash<ValueType>` belongs to the value type and is the
parameter `stdHash`; a `std::size_t` is held in a natural number. -/
def Hash {V : Type} (stdHash : V → Nat) (w : ValueWeightSingleton V) : Nat :=
  stdHash w.value_

/-- The static member `Type()`: the function-local static is initialised
from `Semiring().Name()` on first use and returned on every call. -/
def Type_ {V : Type} (S : SemiringType V) : String :=
  S.Name

/-- The private member `DivideCommutative(lhs, rhs)`. -/
def DivideCommutative {V : Type} (S : SemiringType V)
    (lhs rhs : ValueWeightSingleton V) : ValueWeightSingleton V :=
  { lhs with value_ := S.OpDivide lhs.value_ rhs.value_ }

/-- The private member `DivideNoncommutative(lhs, rhs, typ)`, threading the
diagnostic log through the `DIVIDE_ANY` branch. -/
def DivideNoncommutative {V : Type} (S : SemiringType V)
    (lhs rhs : ValueWeightSingleton V) (typ : DivideType) (log : ErrorLog) :
    ValueWeightSingleton V × ErrorLog :=
  match typ with
  | DivideType.DIVIDE_LEFT =>
    let recip := S.Reciprocal rhs.value_
    ({ lhs with value_ := S.OpTimes recip lhs.value_ }, log)
  | DivideType.DIVIDE_RIGHT =>
    let recip := S.Reciprocal rhs.value_
    ({ lhs with value_ := S.OpTimes lhs.value_ recip }, log)
  | DivideType.DIVIDE_ANY =>
    let log1 := FSTERROR log
      ("Only explicit left or right division is defined "
        ++ "for the noncommutative " ++ Type_ S ++ " semiring")
    ({ lhs with value_ := S.NoWeight }, log1)

/-- The friend function `Divide(lhs, rhs, typ)`. -/
def Divide {V : Type} (S : SemiringType V)
    (lhs rhs : ValueWeightSingleton V) (typ : DivideType) (log : ErrorLog) :
    ValueWeightSingleton V × ErrorLog :=
  if S.Commutative then
    (DivideCommutative S lhs rhs, log)
  else
    DivideNoncommutative S lhs rhs typ log

/-- The call `Divide(lhs, rhs)` with the third argument omitted, which the
declaration defaults to `fst::DIVIDE_ANY`. -/
def DivideDefault {V : Type} (S : SemiringType V)
    (lhs rhs : ValueWeightSingleton V) (log : ErrorLog) :
    ValueWeightSingleton V × ErrorLog :=
  Divide S lhs rhs DivideType.DIVIDE_ANY log

/-! ### Properties -/

/-- Modelled from the spec: the constant `fst::kSemiring` of `fst/weight.h`
is not among the sources; in OpenFst it is `kLeftSemiring | kRightSemiring`,
that is `0x3`. -/
def kSemiring : Nat := 0x3

/-- Modelled from the spec: the constant `fst::kCommutative` of
`fst/weight.h` is not among the sources; in OpenFst it is `0x4`. -/
def kCommutative : Nat := 0x4

/-- Modelled from the spec: the constant `fst::kIdempotent` of
`fst/weight.h` is not among the sources; in OpenFst it is `0x8`. -/
def kIdempotent : Nat := 0x8

/-- The static member `Properties()`.  All operands are below `2^64`, so the
`uint64` disjunction is the disjunction of natural numbers. -/
def Properties {V : Type} (S : SemiringType V) : Nat :=
  kSemiring
    ||| (if S.Commutative then kCommutative else 0)
    ||| (if S.Idempotent then kIdempotent else 0)

/-! ### Binary input and output -/

/-- One `char` of a stream or of an object representation. -/
abbrev Byte := Fin 256

/-- What `std::is_pod<ValueType>` and `sizeof(value_)` give for the value
type: the number of bytes of an object, the bytes an object holds (what
`reinterpret_cast<const char *>(&value_)` points to), and the value held by
an object whose bytes are the given ones.  Storing the bytes of an object
back into an object of the same type gives the same value. -/
structure PodLayout (V : Type) where
  sizeof : Nat
  toBytes : V → List Byte
  fromBytes : List Byte → V
  sizeof_pos : 0 < sizeof
  toBytes_length : ∀ v, (toBytes v).length = sizeof
  fromBytes_toBytes : ∀ v, fromBytes (toBytes v) = v

/-- An in-memory character stream usable both as `std::ostream` and as
`std::istream` (as `std::stringstream` is): the characters written so far,
the get position, and the iostate bits.  Output is appended at the end. -/
structure CharStream where
  buf : List Byte
  gpos : Nat
  eofbit : Bool
  failbit : Bool
  badbit : Bool
  deriving DecidableEq, Repr

/-- A freshly constructed stream holding no characters. -/
def CharStream.empty : CharStream :=
  { buf := [], gpos := 0, eofbit := false, failbit := false, badbit := false }

/-- The member `good()`: no iostate bit is set. -/
def CharStream.good (s : CharStream) : Bool :=
  !s.eofbit && !s.failbit && !s.badbit

/-- The member `fail()`: `failbit` or `badbit` is set. -/
def CharStream.fail (s : CharStream) : Bool :=
  s.failbit || s.badbit

/-- The characters not yet extracted. -/
def CharStream.remaining (s : CharStream) : List Byte :=
  s.buf.drop s.gpos

/-- The member `std::istream::read(buf, n)`, returning the characters stored
into the caller's array and the stream afterwards.  On a stream that is not
good the sentry sets `failbit` and nothing is extracted.  Otherwise characters
are extracted until `n` of them are stored or the end of the sequence is
reached; reaching the end first sets `eofbit` and `failbit`. -/
def CharStream.read (s : CharStream) (n : Nat) : List Byte × CharStream :=
  if s.good then
    let avail := s.remaining
    if n ≤ avail.length then
      (avail.take n, { s with gpos := s.gpos + n })
    else
      (avail, { s with gpos := s.gpos + avail.length, eofbit := true, failbit := true })
  else
    ([], { s with failbit := true })

/-- The member `std::ostream::write(buf, n)` on the `n` characters `cs`:
appended to the sequence when the stream is good, and nothing is inserted
otherwise. -/
def CharStream.write (s : CharStream) (cs : List Byte) : CharStream :=
  if s.good then { s with buf := s.buf ++ cs } else s

/-- The member `Read(strm)`: `strm.read` stores the extracted characters over
the leading bytes of `value_`; the bytes it does not reach keep their
content.  Returns the weight afterwards and the stream. -/
def Read {V : Type} (L : PodLayout V) (w : ValueWeightSingleton V)
    (strm : CharStream) : ValueWeightSingleton V × CharStream :=
  let r := strm.read L.sizeof
  ({ w with value_ := L.fromBytes (r.1 ++ (L.toBytes w.value_).drop r.1.length) }, r.2)

/-- The member `Write(strm)`: `strm.write` on the `sizeof(value_)` bytes of
`value_`. -/
def Write {V : Type} (L : PodLayout V) (w : ValueWeightSingleton V)
    (strm : CharStream) : CharStream :=
  strm.write ((L.toBytes w.value_).take L.sizeof)

/-! ### Example descriptors and value layouts

Concrete semiring classes and POD value types on which the theorems below are
instantiated. -/

/-- A two-by-two integer matrix, rows `(a, b)` and `(c, d)`. -/
structure Mat2 where
  a : Int
  b : Int
  c : Int
  d : Int
  deriving DecidableEq, Repr

/-- The matrix product. -/
def Mat2.mul (m n : Mat2) : Mat2 :=
  ⟨m.a * n.a + m.b * n.c, m.a * n.b + m.b * n.d,
   m.c * n.a + m.d * n.c, m.c * n.b + m.d * n.d⟩

/-- The entrywise sum. -/
def Mat2.add (m n : Mat2) : Mat2 :=
  ⟨m.a + n.a, m.b + n.b, m.c + n.c, m.d + n.d⟩

/-- The entrywise difference. -/
def Mat2.sub (m n : Mat2) : Mat2 :=
  ⟨m.a - n.a, m.b - n.b, m.c - n.c, m.d - n.d⟩

/-- The identity matrix. -/
def Mat2.one : Mat2 := ⟨1, 0, 0, 1⟩

/-- The zero matrix. -/
def Mat2.zero : Mat2 := ⟨0, 0, 0, 0⟩

/-- The determinant. -/
def Mat2.det (m : Mat2) : Int :=
  m.a * m.d - m.b * m.c

/-- The transpose. -/
def Mat2.transpose (m : Mat2) : Mat2 :=
  ⟨m.a, m.c, m.b, m.d⟩

/-- The inverse over the integers, which exists when the determinant is a
unit. -/
def Mat2.inv (m : Mat2) : Option Mat2 :=
  if m.det = 1 then some ⟨m.d, -m.b, -m.c, m.a⟩
  else if m.det = -1 then some ⟨-m.d, m.b, m.c, -m.a⟩
  else none

/-- Lifts a binary matrix operation to values that may be the invalid weight
`none`. -/
def liftMat2 (f : Mat2 → Mat2 → Mat2) (x y : Option Mat2) : Option Mat2 :=
  match x, y with
  | some m, some n => some (f m n)
  | _, _ => none

/-- A noncommutative descriptor: two-by-two integer matrices, with `none` as
the invalid weight. -/
def matrixSemiring : SemiringType (Option Mat2) where
  NoWeight := none
  Zero := some Mat2.zero
  One := some Mat2.one
  OpPlus := liftMat2 Mat2.add
  OpMinus := liftMat2 Mat2.sub
  OpTimes := liftMat2 Mat2.mul
  OpDivide := fun _ _ => none
  Reciprocal := fun x => x.bind Mat2.inv
  OpStar := fun _ => none
  Reverse := fun x => x.map Mat2.transpose
  Member := fun x => x.isSome
  EqualTo := fun x y => decide (x = y)
  Commutative := false
  Idempotent := false
  Name := "matrix2"

/-- A commutative descriptor: counts, held in integers, with `-1` as the
invalid weight. -/
def countSemiring : SemiringType Int where
  NoWeight := -1
  Zero := 0
  One := 1
  OpPlus := fun x y => x + y
  OpMinus := fun x y => x - y
  OpTimes := fun x y => x * y
  OpDivide := fun x y => x / y
  Reciprocal := fun x => 1 / x
  OpStar := fun x => if x = 0 then 1 else -1
  Reverse := fun x => x
  Member := fun x => decide (0 ≤ x)
  EqualTo := fun x y => decide (x = y)
  Commutative := true
  Idempotent := false
  Name := "count"

/-- The layout of `bool`: one byte, `1` for `true` and `0` for `false`. -/
def boolLayout : PodLayout Bool where
  sizeof := 1
  toBytes := fun v => [if v then 1 else 0]
  fromBytes := fun cs =>
    match cs with
    | c :: _ => decide (c ≠ 0)
    | [] => false
  sizeof_pos := by decide
  toBytes_length := fun _ => rfl
  fromBytes_toBytes := by decide

/-- The layout of a little-endian `uint16_t`: low byte first. -/
def u16Layout : PodLayout (Fin 65536) where
  sizeof := 2
  toBytes := fun v =>
    [⟨v.val % 256, Nat.mod_lt _ (by decide)⟩,
     ⟨v.val / 256, by have := v.isLt; omega⟩]
  fromBytes := fun cs =>
    match cs with
    | lo :: hi :: _ => ⟨lo.val + 256 * hi.val, by have := lo.isLt; have := hi.isLt; omega⟩
    | [lo] => ⟨lo.val, by have := lo.isLt; omega⟩
    | [] => ⟨0, by decide⟩
  sizeof_pos := by decide
  toBytes_length := fun _ => rfl
  fromBytes_toBytes := by
    intro v
    apply Fin.ext
    show v.val % 256 + 256 * (v.val / 256) = v.val
    omega

/-- The boolean descriptor of the scenario in the specification: `bool`
values with `Zero = false`, `One = true`, `OpPlus` the logical or, `OpTimes`
the logical and, and `EqualTo` the equality of values.  The members the
scenario leaves open are filled in with the usual boolean semiring (both
flags set, every value a member, `OpStar` constantly `One`). -/
def booleanSemiring : SemiringType Bool where
  NoWeight := false
  Zero := false
  One := true
  OpPlus := fun x y => x || y
  OpMinus := fun x y => x && !y
  OpTimes := fun x y => x && y
  OpDivide := fun x _ => x
  Reciprocal := fun x => x
  OpStar := fun _ => true
  Reverse := fun x => x
  Member := fun _ => true
  EqualTo := fun x y => decide (x = y)
  Commutative := true
  Idempotent := true
  Name := "boolean"

/-- The usual `std::hash<bool>`: the value converted to `std::size_t`. -/
def boolHash (v : Bool) : Nat :=
  if v then 1 else 0

/-! ## Theorems -/

/-! ### Auxiliary facts about the example descriptors -/

theorem Mat2.mul_assoc (m n k : Mat2) :
    Mat2.mul (Mat2.mul m n) k = Mat2.mul m (Mat2.mul n k) := by
  cases m; cases n; cases k
  simp only [Mat2.mul, Mat2.mk.injEq]
  refine ⟨?_, ?_, ?_, ?_⟩ <;> ring

/-- C1: on a descriptor with `Commutative() == false`, `Divide(a, b, ANY)` and
`Divide(a, b)` with the mode omitted both return the weight wrapping the
descriptor's `NoWeight()` and add exactly one diagnostic, naming the semiring,
to the error log, whatever `a` and `b` are. -/
theorem divide_any_noncommutative {V : Type} (S : SemiringType V)
    (a b : ValueWeightSingleton V) (log : ErrorLog)
    (hnc : S.Commutative = false) :
    Value (Divide S a b DivideType.DIVIDE_ANY log).1 = S.NoWeight
      ∧ (Divide S a b DivideType.DIVIDE_ANY log).1 = NoWeight S
      ∧ (Divide S a b DivideType.DIVIDE_ANY log).2
          = log ++ ["Only explicit left or right division is defined for the noncommutative "
                      ++ S.Name ++ " semiring"]
      ∧ (Divide S a b DivideType.DIVIDE_ANY log).2 ≠ log
      ∧ Value (DivideDefault S a b log).1 = S.NoWeight
      ∧ (DivideDefault S a b log).1 = NoWeight S
      ∧ (DivideDefault S a b log).2
          = log ++ ["Only explicit left or right division is defined for the noncommutative "
                      ++ S.Name ++ " semiring"]
      ∧ (DivideDefault S a b log).2 ≠ log := by
  have h1 : (Divide S a b DivideType.DIVIDE_ANY log).1 = NoWeight S := by
    simp [Divide, hnc, DivideNoncommutative, NoWeight]
  have h2 : (Divide S a b DivideType.DIVIDE_ANY log).2
      = log ++ ["Only explicit left or right division is defined for the noncommutative "
                  ++ S.Name ++ " semiring"] := by
    simp [Divide, hnc, DivideNoncommutative, FSTERROR, Type_, String.append_assoc]
  have h3 : (Divide S a b DivideType.DIVIDE_ANY log).2 ≠ log := by
    rw [h2]
    simp
  have h0 : Value (Divide S a b DivideType.DIVIDE_ANY log).1 = S.NoWeight := by
    rw [h1]
    rfl
  exact ⟨h0, h1, h2, h3, h0, h1, h2, h3⟩

theorem divide_any_noncommutative_witness :
    matrixSemiring.Commutative = false
      ∧ Value (Divide matrixSemiring ⟨some ⟨1, 2, 3, 4⟩⟩ ⟨some ⟨1, 1, 0, 1⟩⟩
          DivideType.DIVIDE_ANY []).1 = none
      ∧ (Divide matrixSemiring ⟨some ⟨1, 2, 3, 4⟩⟩ ⟨some ⟨1, 1, 0, 1⟩⟩
          DivideType.DIVIDE_ANY []).2
          = ["Only explicit left or right division is defined for the noncommutative matrix2 semiring"] :=
  ⟨rfl,
   (divide_any_noncommutative matrixSemiring ⟨some ⟨1, 2, 3, 4⟩⟩ ⟨some ⟨1, 1, 0, 1⟩⟩ [] rfl).1,
   by decide⟩

/-- C2: `Divide(a, b, mode)` adds a diagnostic to the error log if and only if
the descriptor is noncommutative and the mode is `DIVIDE_ANY`; in every other
case (a commutative descriptor with any mode, or mode `DIVIDE_LEFT` or
`DIVIDE_RIGHT`) the log is returned unchanged. -/
theorem divide_error_iff {V : Type} (S : SemiringType V)
    (a b : ValueWeightSingleton V) (typ : DivideType) (log : ErrorLog) :
    ((Divide S a b typ log).2 ≠ log
        ↔ (S.Commutative = false ∧ typ = DivideType.DIVIDE_ANY))
      ∧ ((Divide S a b typ log).2 = log
        ↔ (S.Commutative = true ∨ typ = DivideType.DIVIDE_LEFT
            ∨ typ = DivideType.DIVIDE_RIGHT)) := by
  cases hc : S.Commutative <;> cases typ <;>
    simp [Divide, hc, DivideNoncommutative, FSTERROR]

/-- C3: on a descriptor with `Commutative() == true`, for every mode the
weight returned by `Divide(a, b, mode)` wraps `OpDivide(Value(a), Value(b))`,
and the returned weight and log are the same for any two modes. -/
theorem divide_commutative {V : Type} (S : SemiringType V)
    (a b : ValueWeightSingleton V) (log : ErrorLog)
    (hc : S.Commutative = true) :
    (∀ typ : DivideType,
        Value (Divide S a b typ log).1 = S.OpDivide (Value a) (Value b))
      ∧ (∀ typ1 typ2 : DivideType, Divide S a b typ1 log = Divide S a b typ2 log) := by
  constructor
  · intro typ
    simp [Divide, hc, DivideCommutative, Value]
  · intro typ1 typ2
    simp [Divide, hc]

theorem divide_commutative_witness :
    countSemiring.Commutative = true
      ∧ Value (Divide countSemiring ⟨7⟩ ⟨2⟩ DivideType.DIVIDE_LEFT []).1 = 3
      ∧ Value (Divide countSemiring ⟨7⟩ ⟨2⟩ DivideType.DIVIDE_RIGHT []).1 = 3
      ∧ Value (Divide countSemiring ⟨7⟩ ⟨2⟩ DivideType.DIVIDE_ANY []).1 = 3 :=
  ⟨rfl,
   (divide_commutative countSemiring ⟨7⟩ ⟨2⟩ [] rfl).1 DivideType.DIVIDE_LEFT,
   by decide, by decide⟩

/-- C4: on a descriptor with `Commutative() == false`, the weight returned by
`Divide(a, b, LEFT)` wraps `OpTimes(Reciprocal(Value(b)), Value(a))`: the
reciprocal is the left factor. -/
theorem divide_left_noncommutative {V : Type} (S : SemiringType V)
    (a b : ValueWeightSingleton V) (log : ErrorLog)
    (hnc : S.Commutative = false) :
    Value (Divide S a b DivideType.DIVIDE_LEFT log).1
      = S.OpTimes (S.Reciprocal (Value b)) (Value a) := by
  simp [Divide, hnc, DivideNoncommutative, Value]

theorem divide_left_noncommutative_witness :
    matrixSemiring.Commutative = false
      ∧ Value (Divide matrixSemiring ⟨some ⟨1, 2, 3, 4⟩⟩ ⟨some ⟨1, 1, 0, 1⟩⟩
          DivideType.DIVIDE_LEFT []).1 = some ⟨-2, -2, 3, 4⟩ :=
  ⟨rfl,
   (divide_left_noncommutative matrixSemiring ⟨some ⟨1, 2, 3, 4⟩⟩
      ⟨some ⟨1, 1, 0, 1⟩⟩ [] rfl).trans (by decide)⟩

/-- C5: on a descriptor with `Commutative() == false`, the weight returned by
`Divide(a, b, RIGHT)` wraps `OpTimes(Value(a), Reciprocal(Value(b)))`: the
reciprocal is the right factor. -/
theorem divide_right_noncommutative {V : Type} (S : SemiringType V)
    (a b : ValueWeightSingleton V) (log : ErrorLog)
    (hnc : S.Commutative = false) :
    Value (Divide S a b DivideType.DIVIDE_RIGHT log).1
      = S.OpTimes (Value a) (S.Reciprocal (Value b)) := by
  simp [Divide, hnc, DivideNoncommutative, Value]

theorem divide_right_noncommutative_witness :
    matrixSemiring.Commutative = false
      ∧ Value (Divide matrixSemiring ⟨some ⟨1, 2, 3, 4⟩⟩ ⟨some ⟨1, 1, 0, 1⟩⟩
          DivideType.DIVIDE_RIGHT []).1 = some ⟨1, 1, 3, 1⟩ :=
  ⟨rfl,
   (divide_right_noncommutative matrixSemiring ⟨some ⟨1, 2, 3, 4⟩⟩
      ⟨some ⟨1, 1, 0, 1⟩⟩ [] rfl).trans (by decide)⟩

theorem CharStream.write_of_good (s : CharStream) (cs : List Byte)
    (h : s.good = true) : s.write cs = { s with buf := s.buf ++ cs } := by
  simp [CharStream.write, h]

theorem CharStream.write_of_not_good (s : CharStream) (cs : List Byte)
    (h : s.good = false) : s.write cs = s := by
  simp [CharStream.write, h]

theorem CharStream.read_of_enough (s : CharStream) (n : Nat)
    (h : s.good = true) (hn : n ≤ s.remaining.length) :
    s.read n = (s.remaining.take n, { s with gpos := s.gpos + n }) := by
  simp [CharStream.read, h, hn]

theorem CharStream.read_of_short (s : CharStream) (n : Nat)
    (hn : s.remaining.length < n) : (s.read n).2.failbit = true := by
  unfold CharStream.read
  split
  · rw [if_neg (Nat.not_le.mpr hn)]
  · rfl

theorem Write_empty {V : Type} (L : PodLayout V) (w : ValueWeightSingleton V) :
    Write L w CharStream.empty
      = { buf := L.toBytes w.value_, gpos := 0,
          eofbit := false, failbit := false, badbit := false } := by
  have hlen := L.toBytes_length w.value_
  unfold Write
  rw [CharStream.write_of_good CharStream.empty _ rfl, ← hlen, List.take_length]
  rfl

theorem Read_Write_empty {V : Type} (L : PodLayout V)
    (w fresh : ValueWeightSingleton V) :
    Read L fresh (Write L w CharStream.empty)
      = (w, { buf := L.toBytes w.value_, gpos := L.sizeof,
              eofbit := false, failbit := false, badbit := false }) := by
  have hlen := L.toBytes_length w.value_
  have hfresh := L.toBytes_length fresh.value_
  rw [Write_empty]
  unfold Read
  rw [CharStream.read_of_enough
    { buf := L.toBytes w.value_, gpos := 0, eofbit := false, failbit := false, badbit := false }
    L.sizeof rfl (by simp [CharStream.remaining, hlen])]
  simp only [CharStream.remaining, List.drop_zero, Nat.zero_add]
  rw [← hlen, List.take_length, List.drop_of_length_le (by omega), List.append_nil,
    L.fromBytes_toBytes]

/-- C7: writing any weight `w` to an empty stream and reading that stream into
any other weight succeeds (the stream stays good, `fail()` is false) and
leaves in the weight read a wrapped value with the same bytes as that of `w`,
hence the same weight. -/
theorem write_read_roundtrip {V : Type} (L : PodLayout V)
    (w fresh : ValueWeightSingleton V) :
    (Read L fresh (Write L w CharStream.empty)).2.fail = false
      ∧ (Read L fresh (Write L w CharStream.empty)).2.good = true
      ∧ L.toBytes (Value (Read L fresh (Write L w CharStream.empty)).1)
          = L.toBytes (Value w)
      ∧ (Read L fresh (Write L w CharStream.empty)).1 = w := by
  rw [Read_Write_empty]
  exact ⟨rfl, rfl, rfl, rfl⟩

/-- C9: when fewer than `sizeof(ValueType)` characters remain in the stream,
`Read` returns the stream with `failbit` set, so `fail()` is true and `good()`
is false on the stream handed back to the caller. -/
theorem read_short_fails {V : Type} (L : PodLayout V)
    (w : ValueWeightSingleton V) (s : CharStream)
    (hshort : s.remaining.length < L.sizeof) :
    (Read L w s).2.failbit = true
      ∧ (Read L w s).2.fail = true
      ∧ (Read L w s).2.good = false := by
  have h : (Read L w s).2.failbit = true := by
    unfold Read
    exact CharStream.read_of_short s L.sizeof hshort
  refine ⟨h, ?_, ?_⟩
  · simp [CharStream.fail, h]
  · simp [CharStream.good, h]

theorem read_short_fails_witness :
    (Read u16Layout ⟨0⟩
        { buf := [7, 1], gpos := 1, eofbit := false, failbit := false, badbit := false }).2.fail
      = true :=
  (read_short_fails u16Layout ⟨0⟩
    { buf := [7, 1], gpos := 1, eofbit := false, failbit := false, badbit := false }
    (by decide)).2.1

/-! ### Properties -/

theorem testBit_of_lt_sixteen (n i : Nat) (hn : n < 16) (hi : 4 ≤ i) :
    n.testBit i = false := by
  apply Nat.testBit_lt_two_pow
  calc n < 2 ^ 4 := hn
    _ ≤ 2 ^ i := Nat.pow_le_pow_right (by decide) hi

/-- C10: `Properties()` is `kSemiring` or-ed with `kCommutative` exactly when
`Commutative()` holds and with `kIdempotent` exactly when `Idempotent()`
holds, where `kSemiring = 0x3`, `kCommutative = 0x4`, `kIdempotent = 0x8`: the
two semiring bits are always set, bit 2 is set if and only if the descriptor
is commutative, bit 3 if and only if it is idempotent, and no other bit is
set. -/
theorem properties_bits {V : Type} (S : SemiringType V) :
    (kSemiring = 0x3 ∧ kCommutative = 0x4 ∧ kIdempotent = 0x8)
      ∧ Properties S &&& kSemiring = kSemiring
      ∧ (Properties S &&& kCommutative = kCommutative ↔ S.Commutative = true)
      ∧ (Properties S &&& kCommutative = 0 ↔ S.Commutative = false)
      ∧ (Properties S &&& kIdempotent = kIdempotent ↔ S.Idempotent = true)
      ∧ (Properties S &&& kIdempotent = 0 ↔ S.Idempotent = false)
      ∧ (∀ i : Nat, (Properties S).testBit i
          = (decide (i = 0) || decide (i = 1)
              || (decide (i = 2) && S.Commutative)
              || (decide (i = 3) && S.Idempotent))) := by
  have key : ∀ n : Nat, n < 16 → ∀ c d : Bool,
      n.testBit 0 = true → n.testBit 1 = true → n.testBit 2 = c → n.testBit 3 = d →
      ∀ i : Nat, n.testBit i
        = (decide (i = 0) || decide (i = 1) || (decide (i = 2) && c) || (decide (i = 3) && d)) := by
    intro n hn c d h0 h1 h2 h3 i
    by_cases hi : 4 ≤ i
    · rw [testBit_of_lt_sixteen n i hn hi]
      have e0 : i ≠ 0 := by omega
      have e1 : i ≠ 1 := by omega
      have e2 : i ≠ 2 := by omega
      have e3 : i ≠ 3 := by omega
      simp [e0, e1, e2, e3]
    · have hi4 : i < 4 := by omega
      interval_cases i
      · simp [h0]
      · simp [h1]
      · simp [h2]
      · simp [h3]
  refine ⟨⟨rfl, rfl, rfl⟩, ?_⟩
  cases hc : S.Commutative <;> cases hd : S.Idempotent
  · have hP : Properties S = 3 := by simp [Properties, hc, hd, kSemiring]
    rw [hP]
    exact ⟨by decide, by decide, by decide, by decide, by decide,
      key 3 (by decide) false false (by decide) (by decide) (by decide) (by decide)⟩
  · have hP : Properties S = 11 := by
      simp [Properties, hc, hd, kSemiring, kIdempotent]
    rw [hP]
    exact ⟨by decide, by decide, by decide, by decide, by decide,
      key 11 (by decide) false true (by decide) (by decide) (by decide) (by decide)⟩
  · have hP : Properties S = 7 := by
      simp [Properties, hc, hd, kSemiring, kCommutative]
    rw [hP]
    exact ⟨by decide, by decide, by decide, by decide, by decide,
      key 7 (by decide) true false (by decide) (by decide) (by decide) (by decide)⟩
  · have hP : Properties S = 15 := by
      simp [Properties, hc, hd, kSemiring, kCommutative, kIdempotent]
    rw [hP]
    exact ⟨by decide, by decide, by decide, by decide, by decide,
      key 15 (by decide) true true (by decide) (by decide) (by decide) (by decide)⟩

/-! ### The boolean scenario and the semiring laws -/

/-- C11: for a descriptor over `bool` with `Zero = false`, `One = true`,
`OpPlus` the logical or, `OpTimes` the logical and and `EqualTo` the equality
of values: `Times(One(), Zero()) == Zero()`, `Plus(Zero(), One()) == One()`,
and writing `One()` to an empty stream then reading it into any other weight
succeeds and gives a weight `== One()`. -/
theorem boolean_scenario (S : SemiringType Bool) (L : PodLayout Bool)
    (fresh : ValueWeightSingleton Bool)
    (hZero : S.Zero = false) (hOne : S.One = true)
    (hPlus : ∀ x y : Bool, S.OpPlus x y = (x || y))
    (hTimes : ∀ x y : Bool, S.OpTimes x y = (x && y))
    (hEq : ∀ x y : Bool, S.EqualTo x y = decide (x = y)) :
    opEq S (Times S (One S) (Zero S)) (Zero S) = true
      ∧ opEq S (Plus S (Zero S) (One S)) (One S) = true
      ∧ (Read L fresh (Write L (One S) CharStream.empty)).2.fail = false
      ∧ opEq S (Read L fresh (Write L (One S) CharStream.empty)).1 (One S) = true := by
  rw [Read_Write_empty]
  refine ⟨?_, ?_, rfl, ?_⟩
  · simp [opEq, Times, One, Zero, hZero, hOne, hTimes, hEq]
  · simp [opEq, Plus, One, Zero, hZero, hOne, hPlus, hEq]
  · simp [opEq, hEq]

theorem boolean_scenario_witness :
    opEq booleanSemiring
        (Times booleanSemiring (One booleanSemiring) (Zero booleanSemiring))
        (Zero booleanSemiring) = true
      ∧ opEq booleanSemiring
        (Plus booleanSemiring (Zero booleanSemiring) (One booleanSemiring))
        (One booleanSemiring) = true
      ∧ opEq booleanSemiring
        (Read boolLayout ⟨false⟩ (Write boolLayout (One booleanSemiring) CharStream.empty)).1
        (One booleanSemiring) = true :=
  have h := boolean_scenario booleanSemiring boolLayout ⟨false⟩ rfl rfl
    (fun _ _ => rfl) (fun _ _ => rfl) (fun _ _ => rfl)
  ⟨h.1, h.2.1, h.2.2.2⟩

/-- C12: for a descriptor whose `OpPlus` and `OpTimes` are associative, with
`Zero()` the identity of `OpPlus` and `One()` the identity of `OpTimes`, all
modulo `EqualTo`: `Plus(Plus(a,b),c) == Plus(a,Plus(b,c))`,
`Times(Times(a,b),c) == Times(a,Times(b,c))`, `Plus(a, Zero()) == a` and
`Times(a, One()) == a` under the facade's `operator==`. -/
theorem semiring_laws {V : Type} (S : SemiringType V)
    (a b c : ValueWeightSingleton V)
    (hPlusAssoc : ∀ x y z : V,
      S.EqualTo (S.OpPlus (S.OpPlus x y) z) (S.OpPlus x (S.OpPlus y z)) = true)
    (hTimesAssoc : ∀ x y z : V,
      S.EqualTo (S.OpTimes (S.OpTimes x y) z) (S.OpTimes x (S.OpTimes y z)) = true)
    (hZero : ∀ x : V,
      S.EqualTo (S.OpPlus x S.Zero) x = true ∧ S.EqualTo (S.OpPlus S.Zero x) x = true)
    (hOne : ∀ x : V,
      S.EqualTo (S.OpTimes x S.One) x = true ∧ S.EqualTo (S.OpTimes S.One x) x = true) :
    opEq S (Plus S (Plus S a b) c) (Plus S a (Plus S b c)) = true
      ∧ opEq S (Times S (Times S a b) c) (Times S a (Times S b c)) = true
      ∧ opEq S (Plus S a (Zero S)) a = true
      ∧ opEq S (Times S a (One S)) a = true :=
  ⟨hPlusAssoc a.value_ b.value_ c.value_,
   hTimesAssoc a.value_ b.value_ c.value_,
   (hZero a.value_).1,
   (hOne a.value_).1⟩

theorem semiring_laws_witness :
    opEq countSemiring
        (Plus countSemiring (Plus countSemiring ⟨2⟩ ⟨3⟩) ⟨5⟩)
        (Plus countSemiring ⟨2⟩ (Plus countSemiring ⟨3⟩ ⟨5⟩)) = true
      ∧ opEq countSemiring
        (Times countSemiring (Times countSemiring ⟨2⟩ ⟨3⟩) ⟨5⟩)
        (Times countSemiring ⟨2⟩ (Times countSemiring ⟨3⟩ ⟨5⟩)) = true
      ∧ opEq countSemiring (Plus countSemiring ⟨2⟩ (Zero countSemiring)) ⟨2⟩ = true
      ∧ opEq countSemiring (Times countSemiring ⟨2⟩ (One countSemiring)) ⟨2⟩ = true :=
  semiring_laws countSemiring ⟨2⟩ ⟨3⟩ ⟨5⟩
    (by intro x y z; simp [countSemiring, add_assoc])
    (by intro x y z; simp [countSemiring, mul_assoc])
    (by intro x; simp [countSemiring])
    (by intro x; simp [countSemiring])

theorem PodLayout.toBytes_injective {V : Type} (L : PodLayout V) (x y : V)
    (h : L.toBytes x = L.toBytes y) : x = y := by
  rw [← L.fromBytes_toBytes x, ← L.fromBytes_toBytes y, h]

/-- C14: `Hash(a)` is `std::hash<ValueType>` applied to the wrapped value and
nothing else (no descriptor enters it, and weights with the same bytes hash
alike); and for a descriptor whose `EqualTo` holds only between values with
the same bytes, `a == b` implies `Hash(a) == Hash(b)`. -/
theorem hash_respects_equality {V : Type} (S : SemiringType V) (L : PodLayout V)
    (stdHash : V → Nat) (a b : ValueWeightSingleton V) :
    Hash stdHash a = stdHash (Value a)
      ∧ (L.toBytes (Value a) = L.toBytes (Value b) → Hash stdHash a = Hash stdHash b)
      ∧ ((∀ x y : V, S.EqualTo x y = true → L.toBytes x = L.toBytes y)
          → opEq S a b = true → Hash stdHash a = Hash stdHash b) := by
  refine ⟨rfl, ?_, ?_⟩
  · intro h
    have hv : a.value_ = b.value_ := L.toBytes_injective _ _ h
    simp [Hash, hv]
  · intro hbit hab
    have hv : a.value_ = b.value_ := L.toBytes_injective _ _ (hbit _ _ hab)
    simp [Hash, hv]

theorem hash_respects_equality_witness :
    opEq booleanSemiring ⟨true⟩ ⟨true⟩ = true
      ∧ Hash boolHash (⟨true⟩ : ValueWeightSingleton Bool) = Hash boolHash ⟨true⟩ :=
  ⟨rfl,
   (hash_respects_equality booleanSemiring boolLayout boolHash ⟨true⟩ ⟨true⟩).2.2
     (by decide) rfl⟩

/-- C16: `Value` commutes with the delegated operators, operands in the order
given: `Value(Plus(a,b)) = OpPlus(Value(a), Value(b))`,
`Value(Minus(a,b)) = OpMinus(Value(a), Value(b))`,
`Value(Times(a,b)) = OpTimes(Value(a), Value(b))` and
`Value(Star(a)) = OpStar(Value(a))`.  The operands are passed by value, so
the results are new weights and `a`, `b` are as before. -/
theorem value_homomorphism {V : Type} (S : SemiringType V)
    (a b : ValueWeightSingleton V) :
    Value (Plus S a b) = S.OpPlus (Value a) (Value b)
      ∧ Value (Minus S a b) = S.OpMinus (Value a) (Value b)
      ∧ Value (Times S a b) = S.OpTimes (Value a) (Value b)
      ∧ Value (Star S a) = S.OpStar (Value a) :=
  ⟨rfl, rfl, rfl, rfl⟩

/-- C17: `a == b` is `EqualTo(Value(a), Value(b))`, `a != b` is its negation,
and exactly one of `a == b` and `a != b` holds. -/
theorem eq_ne_delegate {V : Type} (S : SemiringType V)
    (a b : ValueWeightSingleton V) :
    opEq S a b = S.EqualTo (Value a) (Value b)
      ∧ opNe S a b = !(opEq S a b)
      ∧ (opEq S a b = true ∨ opNe S a b = true)
      ∧ ¬ (opEq S a b = true ∧ opNe S a b = true) := by
  refine ⟨rfl, rfl, ?_, ?_⟩
  · cases h : S.EqualTo a.value_ b.value_ <;> simp [opEq, opNe, h]
  · cases h : S.EqualTo a.value_ b.value_ <;> simp [opEq, opNe, h]

/-! ### Sequential input and output -/

theorem Write_of_good {V : Type} (L : PodLayout V) (w : ValueWeightSingleton V)
    (s : CharStream) (hgood : s.good = true) :
    Write L w s = { s with buf := s.buf ++ L.toBytes w.value_ } := by
  have hlen := L.toBytes_length w.value_
  unfold Write
  rw [CharStream.write_of_good s _ hgood, ← hlen, List.take_length]

theorem Read_of_enough {V : Type} (L : PodLayout V) (w : ValueWeightSingleton V)
    (s : CharStream) (hgood : s.good = true)
    (hn : L.sizeof ≤ s.remaining.length) :
    Read L w s
      = (⟨L.fromBytes (s.remaining.take L.sizeof)⟩, { s with gpos := s.gpos + L.sizeof }) := by
  have hlen := L.toBytes_length w.value_
  unfold Read
  rw [CharStream.read_of_enough s L.sizeof hgood hn]
  have htake : (s.remaining.take L.sizeof).length = L.sizeof := by
    rw [List.length_take]
    omega
  simp only
  rw [List.drop_of_length_le (by omega), List.append_nil]

theorem Read_enough_of_not_fail {V : Type} (L : PodLayout V)
    (w : ValueWeightSingleton V) (s : CharStream)
    (h : (Read L w s).2.fail = false) :
    s.good = true ∧ L.sizeof ≤ s.remaining.length := by
  unfold Read CharStream.read at h
  by_cases hg : s.good = true
  · by_cases hn : L.sizeof ≤ s.remaining.length
    · exact ⟨hg, hn⟩
    · simp [hg, hn, CharStream.fail] at h
  · simp [hg, CharStream.fail] at h

/-- C18: writing `w1` then `w2` to an empty stream and reading twice gives
first a weight with the bytes of `w1`, then one with the bytes of `w2`, both
reads succeeding; and any `Read` that succeeds takes its value from the next
`sizeof(ValueType)` characters, advances the get position by exactly that
many, and leaves the characters of the stream and those after them as they
were. -/
theorem sequential_roundtrip {V : Type} (L : PodLayout V)
    (w1 w2 fresh1 fresh2 : ValueWeightSingleton V) :
    (Read L fresh1 (Write L w2 (Write L w1 CharStream.empty))).1 = w1
      ∧ (Read L fresh1 (Write L w2 (Write L w1 CharStream.empty))).2.fail = false
      ∧ (Read L fresh2
          (Read L fresh1 (Write L w2 (Write L w1 CharStream.empty))).2).1 = w2
      ∧ (Read L fresh2
          (Read L fresh1 (Write L w2 (Write L w1 CharStream.empty))).2).2.fail = false
      ∧ (∀ (w : ValueWeightSingleton V) (s : CharStream),
          (Read L w s).2.fail = false →
            Value (Read L w s).1 = L.fromBytes (s.remaining.take L.sizeof)
              ∧ (s.remaining.take L.sizeof).length = L.sizeof
              ∧ (Read L w s).2.gpos = s.gpos + L.sizeof
              ∧ (Read L w s).2.buf = s.buf
              ∧ (Read L w s).2.remaining = s.remaining.drop L.sizeof) := by
  have h1 := L.toBytes_length w1.value_
  have h2 := L.toBytes_length w2.value_
  have hW : Write L w2 (Write L w1 CharStream.empty)
      = { buf := L.toBytes w1.value_ ++ L.toBytes w2.value_, gpos := 0,
          eofbit := false, failbit := false, badbit := false } := by
    rw [Write_empty, Write_of_good L w2
      { buf := L.toBytes w1.value_, gpos := 0,
        eofbit := false, failbit := false, badbit := false } rfl]
  have hR1 : Read L fresh1 (Write L w2 (Write L w1 CharStream.empty))
      = (w1, { buf := L.toBytes w1.value_ ++ L.toBytes w2.value_, gpos := L.sizeof,
               eofbit := false, failbit := false, badbit := false }) := by
    rw [hW, Read_of_enough L fresh1
      { buf := L.toBytes w1.value_ ++ L.toBytes w2.value_, gpos := 0,
        eofbit := false, failbit := false, badbit := false } rfl
      (by simp [CharStream.remaining, h1])]
    simp only [CharStream.remaining, List.drop_zero, Nat.zero_add]
    rw [← h1, List.take_left, L.fromBytes_toBytes]
  have hR2 : Read L fresh2
      { buf := L.toBytes w1.value_ ++ L.toBytes w2.value_, gpos := L.sizeof,
        eofbit := false, failbit := false, badbit := false }
      = (w2, { buf := L.toBytes w1.value_ ++ L.toBytes w2.value_,
               gpos := L.sizeof + L.sizeof,
               eofbit := false, failbit := false, badbit := false }) := by
    have hrem : CharStream.remaining
        { buf := L.toBytes w1.value_ ++ L.toBytes w2.value_, gpos := L.sizeof,
          eofbit := false, failbit := false, badbit := false } = L.toBytes w2.value_ := by
      simp only [CharStream.remaining]
      rw [← h1, List.drop_left]
    rw [Read_of_enough L fresh2
      { buf := L.toBytes w1.value_ ++ L.toBytes w2.value_, gpos := L.sizeof,
        eofbit := false, failbit := false, badbit := false } rfl
      (by rw [hrem, h2]), hrem, ← h2, List.take_length, L.fromBytes_toBytes]
  refine ⟨?_, ?_, ?_, ?_, ?_⟩
  · rw [hR1]
  · rw [hR1]
    rfl
  · rw [hR1, hR2]
  · rw [hR1, hR2]
    rfl
  · intro w s hs
    obtain ⟨hg, hn⟩ := Read_enough_of_not_fail L w s hs
    rw [Read_of_enough L w s hg hn]
    refine ⟨rfl, ?_, rfl, rfl, ?_⟩
    · rw [List.length_take]
      omega
    · simp [CharStream.remaining, Nat.add_comm]

theorem sequential_roundtrip_witness :
    (Read u16Layout ⟨0⟩
        { buf := [9, 1, 2, 7, 0], gpos := 1,
          eofbit := false, failbit := false, badbit := false }).2.fail = false
      ∧ Value (Read u16Layout ⟨0⟩
          { buf := [9, 1, 2, 7, 0], gpos := 1,
            eofbit := false, failbit := false, badbit := false }).1 = 513
      ∧ (Read u16Layout ⟨0⟩
          { buf := [9, 1, 2, 7, 0], gpos := 1,
            eofbit := false, failbit := false, badbit := false }).2.remaining = [7, 0] :=
  have h := (sequential_roundtrip u16Layout ⟨513⟩ ⟨7⟩ ⟨0⟩ ⟨0⟩).2.2.2.2 ⟨0⟩
    { buf := [9, 1, 2, 7, 0], gpos := 1, eofbit := false, failbit := false, badbit := false }
    (by decide)
  ⟨by decide, h.1.trans (by decide), h.2.2.2.2.trans (by decide)⟩

end festus
